import Mathlib

/-!
Verification of the file-context labeling backend (`label_file.c`).

This file gives a shallow embedding of the lookup engine
(`lookup_common`, `lookup`, `lookup_best_match`), the specfile resolver
(`open_file`, `process_file`) and the binary loader (`load_mmap`) of the
file-context backend, and proves or refutes the frozen claims about it.

C strings are modelled as `List Char` (for the lookup engine) or as byte
lists `List Nat` (for the binary loader).  The external regex engine is a
collaborator and is modelled as an oracle carried by the handle: matching
is a function of the pattern source string, the subject text and the
partial-match flag, exactly as `regex_match(spec->regex, text, ...)` is
determined by the pattern `spec->regex_str` that was compiled.
-/

namespace LabelFile

/-- Result of `regex_match`: full match, partial match, no match, or an
engine error (any other return value). -/
inductive RegexResult where
  | fullMatch
  | partMatch
  | noMatch
  | errMatch
  deriving Repr, DecidableEq, Inhabited

/-- One pattern-to-label rule (`struct spec`), with the fields the lookup
engine reads: the pattern source, the stem index (`-1` = none), the mode
filter (`0` = any), the raw context, the metacharacter flag and the fixed
literal prefix length. -/
structure Spec where
  regex_str : List Char
  stem_id : Int
  mode : Nat
  ctx_raw : List Char
  hasMetaChars : Bool
  prefix_len : Nat
  deriving Repr, DecidableEq, Inhabited

/-- A loaded rule set (`struct saved_data`) together with the regex-engine
oracle: `rmatch pat text pm` is the result of matching `text` against the
regex compiled from `pat` (with partial-match flag `pm`), and
`compileOk pat` tells whether `compile_regex` succeeds on `pat`. -/
structure Handle where
  stems : List (List Char)
  specs : List Spec
  rmatch : List Char → List Char → Bool → RegexResult
  compileOk : List Char → Bool

/-- The `<<none>>` sentinel context. -/
def noneCtx : List Char := ['<', '<', 'n', 'o', 'n', 'e', '>', '>']

/-! ## Duplicate-slash removal (`lookup_common`, lines 754-768)

The C code repeatedly searches the key for the substring `"//"`; at each
occurrence it copies the text before the first slash of the pair and
resumes scanning at the second slash of the pair.  `findDS` is `strstr
(s, "//")` as an index, `collapse_c` is the whole loop. -/

/-- Index of the first occurrence of two adjacent slashes, if any
(`strstr(s, "//")`). -/
def findDS : List Char → Option Nat
  | [] => none
  | [_] => none
  | a :: b :: rest =>
    if a = '/' ∧ b = '/' then some 0
    else (findDS (b :: rest)).map (· + 1)

/-- The duplicate-slash removal loop of `lookup_common`: while `"//"` is
found at index `i`, keep the first `i` characters (everything before the
first slash of the pair) and continue with the suffix starting at the
second slash of the pair.  Each iteration consumes at least one
character, so the loop is driven here by a fuel argument bounded below
by the length of the remaining text. -/
def collapse_go : Nat → List Char → List Char
  | _, [] => []
  | 0, s => s
  | fuel + 1, s =>
    match findDS s with
    | none => s
    | some i => s.take i ++ collapse_go fuel (s.drop (i + 1))

def collapse_c (s : List Char) : List Char := collapse_go s.length s

/-- Reference form of slash canonicalization: copy characters, but after
emitting a `'/'` suppress further `'/'` characters until a non-slash is
seen.  This collapses every run of consecutive slashes to a single slash
and changes nothing else. -/
def collapseAux : Bool → List Char → List Char
  | _, [] => []
  | p, c :: rest =>
    if c = '/' then
      if p then collapseAux true rest
      else '/' :: collapseAux true rest
    else c :: collapseAux false rest

/-! ## Stem computation (`get_stem_from_file_name`, `find_stem_from_file`) -/

/-- Length of the stem of a file name: the index of the first `'/'`
occurring at position ≥ 1, or `0` if there is none. -/
def get_stem_from_file_name (buf : List Char) : Nat :=
  match buf with
  | [] => 0
  | _ :: rest =>
    match List.findIdx? (fun c => c = '/') rest with
    | none => 0
    | some j => j + 1

/-- `find_stem_from_file`: locate the key's stem in the stem array;
returns the stem index (or `-1`) and the text after the stem (`buf` is
advanced past the stem exactly when a stem was found). -/
def find_stem_from_file (stems : List (List Char)) (buf : List Char) : Int × List Char :=
  let sl := get_stem_from_file_name buf
  if sl = 0 then (-1, buf)
  else
    match List.findIdx? (fun st => decide (st.length = sl) && decide (st = buf.take sl)) stems with
    | none => (-1, buf)
    | some i => ((i : Int), buf.drop sl)

/-! ## The reverse scan of `lookup_common` -/

/-- `S_IFMT`: the file-type bit mask (octal `170000`). -/
def S_IFMT : Nat := 61440

/-- The per-spec filter of the scan loop: the spec's stem is absent or
equal to the key's stem, and the masked mode of the key is zero, or the
spec's mode is zero, or the two are equal. -/
def specPasses (fstem : Int) (mode : Nat) (s : Spec) : Bool :=
  (decide (s.stem_id = -1) || decide (s.stem_id = fstem)) &&
  (decide (mode = 0) || decide (s.mode = 0) || decide (mode = s.mode))

/-- The state `lookup_common` computes before scanning: the cleaned key,
the text after the stem, the stem index and the masked mode. -/
structure Query where
  ckey : List Char
  buf : List Char
  fstem : Int
  mode : Nat

def mkQuery (h : Handle) (key : List Char) (ty : Nat) : Query :=
  let ckey := collapse_c key
  let fs := find_stem_from_file h.stems ckey
  ⟨ckey, fs.2, fs.1, ty &&& S_IFMT⟩

/-- The subject text the scan hands to `regex_match` for spec `s`: the
whole (cleaned) key if the spec has no stem, else the text after the
stem. -/
def matchTarget (q : Query) (s : Spec) : List Char :=
  if s.stem_id = -1 then q.ckey else q.buf

/-- Result of the scan: the index of the winning spec, no match, or an
abort (failed lazy compile, or an unexpected `regex_match` result --
the path the specification calls InternalError). -/
inductive Outcome where
  | found (i : Nat)
  | notFound
  | err
  deriving Repr, DecidableEq, Inhabited

/-- The reverse scan loop of `lookup_common` (lines 778-805): fuel `n`
scans indices `n-1, n-2, ..., 0`.  A full match stops with that index; a
partial match stops with that index in partial mode; no-match continues;
anything else (and a failed compile) aborts. -/
def scanFrom (h : Handle) (q : Query) (pm : Bool) : Nat → Outcome
  | 0 => .notFound
  | n + 1 =>
    let s := h.specs.getD n default
    if specPasses q.fstem q.mode s then
      if h.compileOk s.regex_str then
        match h.rmatch s.regex_str (matchTarget q s) pm with
        | .fullMatch => .found n
        | .partMatch => if pm then .found n else .err
        | .noMatch => scanFrom h q pm n
        | .errMatch => .err
      else .err
    else scanFrom h q pm n

/-- `lookup_common` up to (but not including) the `<<none>>` check: empty
spec store is `NotFound`, otherwise run the reverse scan over the whole
array. -/
def lookup_raw (h : Handle) (key : List Char) (ty : Nat) (pm : Bool) : Outcome :=
  if h.specs.length = 0 then .notFound
  else scanFrom h (mkQuery h key ty) pm h.specs.length

/-- `lookup_common`: the scan result, degraded to `NotFound` when the
chosen spec's raw context is the `<<none>>` sentinel (lines 807-811). -/
def lookup_common (h : Handle) (key : List Char) (ty : Nat) (pm : Bool) : Outcome :=
  match lookup_raw h key ty pm with
  | .found i =>
    if (h.specs.getD i default).ctx_raw = noneCtx then .notFound else .found i
  | o => o

/-- The public `lookup` entry point: the winning spec (whose `lr` field
the C function returns), or `none`. -/
def lookup (h : Handle) (key : List Char) (ty : Nat) : Option Spec :=
  match lookup_common h key ty false with
  | .found i => some (h.specs.getD i default)
  | _ => none

/-! ## `lookup_best_match` (lines 837-892) -/

/-- The alias loop of `lookup_best_match`: probe each alias in order; an
exact (no-metachars) hit returns immediately; a non-exact hit replaces
the running best only when its `prefix_len` is strictly greater than the
running value. -/
def bestLoop (h : Handle) (ty : Nat) : List (List Char) → Option Spec → Nat → Option Spec
  | [], best, _ => best
  | a :: rest, best, plen =>
    match lookup h a ty with
    | none => bestLoop h ty rest best plen
    | some s =>
      if s.hasMetaChars = false then some s
      else if plen < s.prefix_len then bestLoop h ty rest (some s) s.prefix_len
      else bestLoop h ty rest best plen

/-- `lookup_best_match`: with no aliases it is plain `lookup`; otherwise
the key is probed first (an exact key hit returns immediately, any key
hit unconditionally seeds the running best), then the aliases are folded
by `bestLoop`. -/
def lookup_best_match (h : Handle) (key : List Char) (aliases : List (List Char)) (ty : Nat) :
    Option Spec :=
  if aliases.isEmpty then lookup h key ty
  else
    match lookup h key ty with
    | some s0 =>
      if s0.hasMetaChars = false then some s0
      else bestLoop h ty aliases (some s0) s0.prefix_len
    | none => bestLoop h ty aliases none 0

/-! ## Sorter

`sort_specs` is called by `init` (line 675) but its definition is not
part of the sources under verification. -/

/-- Modelled from the spec: `sort_specs` (called at line 675, defined
outside the given sources) is a stable partition that moves exact
(no-metachars) specs after regex specs, preserving relative order within
each group. -/
def sort_specs (specs : List Spec) : List Spec :=
  specs.filter (fun s => s.hasMetaChars) ++ specs.filter (fun s => !s.hasMetaChars)

/-! ## Reference description of best-match selection

`bestSpecRef` restates the best-match selection rule in the words of the
(amended) claim, over the list of probe results `key :: aliases`: if some
probe yields an exact (no-metachars) spec, the first such probe wins;
otherwise the hit with the strictly greatest `prefix_len` wins, ties
resolving to the key and then to the earlier alias, except that an alias
hit whose `prefix_len` is `0` is never selected (so if the key's probe
missed and every hit has `prefix_len` `0`, the result is NotFound). -/

/-- The first probe in order that produced an exact (no-metachars) spec. -/
def firstExactHit : List (Option Spec) → Option Spec
  | [] => none
  | none :: rest => firstExactHit rest
  | some s :: rest => if s.hasMetaChars = false then some s else firstExactHit rest

/-- The probes that produced a hit. -/
def hitsOf (ps : List (Option Spec)) : List Spec := ps.filterMap id

/-- The greatest `prefix_len` among a list of specs (`0` when empty). -/
def plenMax (l : List Spec) : Nat := l.foldr (fun s m => max s.prefix_len m) 0

/-- The first spec in the list whose `prefix_len` equals `m`. -/
def firstWithPlen (m : Nat) (l : List Spec) : Option Spec :=
  l.find? (fun s => decide (s.prefix_len = m))

/-- Reference best-match selection over the probe results
`key-probe :: alias-probes` (see section comment above). -/
def bestSpecRef : List (Option Spec) → Option Spec
  | [] => none
  | p0 :: rest =>
    match firstExactHit (p0 :: rest) with
    | some s => some s
    | none =>
      let m := plenMax (hitsOf (p0 :: rest))
      match p0 with
      | some s0 => if s0.prefix_len = m then some s0 else firstWithPlen m (hitsOf rest)
      | none => if m = 0 then none else firstWithPlen m (hitsOf rest)

/-- Proof-side restatement of the alias fold of `lookup_best_match`,
acting directly on the list of probe results. -/
def foldBest : List (Option Spec) → Option Spec → Nat → Option Spec
  | [], best, _ => best
  | none :: rest, best, plen => foldBest rest best plen
  | some s :: rest, best, plen =>
    if s.hasMetaChars = false then some s
    else if plen < s.prefix_len then foldBest rest (some s) s.prefix_len
    else foldBest rest best plen

/-! ## Specfile resolver (`open_file`, `process_file`)

`open_file` builds the candidate names `path.suffix` and
`path.suffix.bin`, stats each, and keeps folding to the preferred one:
with `open_oldest` false it switches to candidate `i` whenever
`mtime_i >= mtime_found` (so the newest wins and, on a timestamp tie,
the later entry in the candidate array); with `open_oldest` true the
comparison is inverted.  The filesystem is abstracted to the list of
per-candidate stat results (`none` = stat failed, `some m` =
modification time `m`). -/

/-- The candidate loop of `open_file` (lines 479-515).  `i` is the index
of the current candidate. -/
def pickLoop (oo : Bool) : Nat → List (Option Int) → Option (Nat × Int) → Option (Nat × Int)
  | _, [], found => found
  | i, none :: rest, found => pickLoop oo (i + 1) rest found
  | i, some m :: rest, found =>
    match found with
    | none => pickLoop oo (i + 1) rest (some (i, m))
    | some (fi, fm) =>
      if Bool.xor oo (decide (fm ≤ m)) then pickLoop oo (i + 1) rest (some (i, m))
      else pickLoop oo (i + 1) rest (some (fi, fm))

/-- `open_file` over the stat results of the candidate list: the index
and mtime of the chosen candidate, or `none` (ENOENT) when no candidate
exists. -/
def open_file (oo : Bool) (stats : List (Option Int)) : Option (Nat × Int) :=
  pickLoop oo 0 stats none

/-- `process_file` (lines 541-559): first pass opens the newest
candidate; if that fails to open, fail; if it fails to load, the second
pass opens the oldest candidate; the result is success of either pass.
`loadOk i` abstracts whether loading candidate `i` (including the digest
update) succeeds. -/
def process_file (stats : List (Option Int)) (loadOk : Nat → Bool) : Bool :=
  match open_file false stats with
  | none => false
  | some (i, _) =>
    if loadOk i then true
    else
      match open_file true stats with
      | none => false
      | some (j, _) => loadOk j

/-! ## Binary loader (`load_mmap`, lines 117-404)

The mapped file is a byte list with a cursor.  The regex engine
collaborators (`regex_version`, `regex_arch_string`, `regex_load_mmap`)
and the validation callback are abstracted into an environment. -/

/-- A memory-mapped region: the bytes of the file and the read cursor
(`next_addr`/`next_len` of `struct mmap_area`). -/
structure Region where
  bytes : List Nat
  pos : Nat
  deriving Repr, DecidableEq, Inhabited

/-- Modelled from the spec: `next_entry` (declared outside the given
sources) reads `n` bytes at the cursor and advances it; it fails when
the read would overrun the mapped region. -/
def next_entry (r : Region) (n : Nat) : Option (List Nat × Region) :=
  if r.pos + n ≤ r.bytes.length then
    some ((r.bytes.drop r.pos).take n, ⟨r.bytes, r.pos + n⟩)
  else none

/-- Little-endian 32-bit decode. -/
def readLE32 (b0 b1 b2 b3 : Nat) : Nat := b0 + 256 * b1 + 65536 * b2 + 16777216 * b3

/-- Read one little-endian `u32` via `next_entry`. -/
def next_u32 (r : Region) : Option (Nat × Region) :=
  match next_entry r 4 with
  | some ([b0, b1, b2, b3], r') => some (readLE32 b0 b1 b2 b3, r')
  | _ => none

/-- Modelled from the spec: the compiled-fcontext magic constant
(defined in a header outside the given sources). -/
def SELINUX_MAGIC_COMPILED_FCONTEXT : Nat := 4185718666

/-- Modelled from the spec: the version thresholds of the compiled
format (defined in a header outside the given sources); only their
ordering `PCRE ≤ MODE ≤ PREFIX_LEN ≤ REGEX_ARCH = MAX` matters. -/
def SELINUX_COMPILED_FCONTEXT_PCRE_VERS : Nat := 2

def SELINUX_COMPILED_FCONTEXT_MODE : Nat := 3

def SELINUX_COMPILED_FCONTEXT_PREFIX_LEN : Nat := 4

def SELINUX_COMPILED_FCONTEXT_REGEX_ARCH : Nat := 5

def SELINUX_COMPILED_FCONTEXT_MAX_VERS : Nat := 5

def UINT32_MAX : Nat := 4294967295

/-- The content of a C string stored in a byte buffer: the bytes before
the first NUL. -/
def cstr (l : List Nat) : List Nat := l.takeWhile (fun b => decide (b ≠ 0))

/-- The bytes of the `<<none>>` sentinel. -/
def noneBytes : List Nat := [60, 60, 110, 111, 110, 101, 62, 62]

/-- The collaborators `load_mmap` consumes: the host regex engine's
version and arch strings, `regex_load_mmap` (which consumes the
serialized compiled pattern and advances the cursor, or fails), the
`validating` flag of the handle and the `selabel_validate` callback. -/
structure MmapEnv where
  regVer : List Nat
  regArch : List Nat
  regexLoad : Region → Bool → Option Region
  validating : Bool
  validate : List Nat → Bool

/-- Interpret a `u32` as a signed 32-bit value (the `stem_id` field is
written as `int32_t`). -/
def asInt32 (v : Nat) : Int :=
  if v < 2147483648 then (v : Int) else (v : Int) - 4294967296

/-- Header parsing of `load_mmap` (lines 150-231): magic, version, regex
engine version string and (from the arch-aware version on) the arch
string.  An arch-string length mismatch is non-fatal: the entry is
skipped (by an unchecked `next_entry(NULL, ...)` whose failure leaves
the cursor where it was) and the arch is recorded as mismatched.
Returns the version, the arch-match flag and the advanced region. -/
def parse_header (env : MmapEnv) (r : Region) : Option (Nat × Bool × Region) :=
  match next_u32 r with
  | none => none
  | some (magic, r) =>
    if magic ≠ SELINUX_MAGIC_COMPILED_FCONTEXT then none else
    match next_u32 r with
    | none => none
    | some (version, r) =>
      if SELINUX_COMPILED_FCONTEXT_MAX_VERS < version then none else
      if SELINUX_COMPILED_FCONTEXT_PCRE_VERS ≤ version then
        match next_u32 r with
        | none => none
        | some (entry_len, r) =>
          if (cstr env.regVer).length ≠ entry_len then none else
          match next_entry r entry_len with
          | none => none
          | some (sb, r) =>
            if cstr sb ≠ cstr env.regVer then none else
            if SELINUX_COMPILED_FCONTEXT_REGEX_ARCH ≤ version then
              match next_u32 r with
              | none => none
              | some (alen, r) =>
                if (cstr env.regArch).length ≠ alen then
                  some (version, false,
                    match next_entry r alen with
                    | some (_, r') => r'
                    | none => r)
                else
                  match next_entry r alen with
                  | none => none
                  | some (ab, r) => some (version, decide (cstr ab = cstr env.regArch), r)
            else some (version, false, r)
      else some (version, false, r)

/-- The handle-side stem table built so far, and the translation map
from file-local stem numbers to handle stem numbers. -/
structure StemState where
  stems : List (List Nat)
  map : List Nat
  deriving Repr, DecidableEq, Inhabited

/-- Modelled from the spec: `find_stem` (defined outside the given
sources) finds an existing stem with equal bytes. -/
def find_stem (stems : List (List Nat)) (b : List Nat) : Option Nat :=
  List.findIdx? (fun s => s = b) stems

/-- One iteration of the stem-loading loop (lines 246-286): read the
stem length (which must be nonzero and below `UINT32_MAX`), read
`stem_len + 1` bytes which must end in NUL, and reuse or store the
stem, recording the translation in the map. -/
def stem_step (st : StemState) (r : Region) : Option (StemState × Region) :=
  match next_u32 r with
  | none => none
  | some (stem_len, r) =>
    if stem_len = 0 then none else
    if stem_len = UINT32_MAX then none else
    match next_entry r (stem_len + 1) with
    | none => none
    | some (buf, r) =>
      if buf.getD stem_len 1 ≠ 0 then none else
      let stem := buf.take stem_len
      match find_stem st.stems stem with
      | some ix => some (⟨st.stems, st.map ++ [ix]⟩, r)
      | none => some (⟨st.stems ++ [stem], st.map ++ [st.stems.length]⟩, r)

def stems_loop : Nat → StemState → Region → Option (StemState × Region)
  | 0, st, r => some (st, r)
  | n + 1, st, r =>
    match stem_step st r with
    | none => none
    | some (st', r') => stems_loop n st' r'

/-- A spec as decoded from the binary file. -/
structure BinSpec where
  ctx : List Nat
  regex_str : List Nat
  mode : Nat
  stem_id : Int
  hasMetaChars : Bool
  prefix_len : Nat
  deriving Repr, DecidableEq, Inhabited

/-- Result of one iteration of the spec-loading loop: a parsed spec, a
hard failure (`rc = -1`, or a failed read), or the early exit taken
when `selabel_validate` rejects the context: the C code then jumps to
`out` with the return code still `0` from the preceding successful
read (lines 319, 330-337), so the walk stops and the load as a whole
succeeds with the specs parsed so far. -/
inductive SpecStepRes where
  | parsed (sp : BinSpec) (r : Region)
  | invalid
  | failed
  deriving Repr, DecidableEq, Inhabited

/-- One iteration of the spec-loading loop (lines 295-397): context
length and bytes (nonzero, NUL-terminated), then -- when validating and
the context is not `<<none>>` -- the `selabel_validate` callback, whose
failure is the `rc = 0` early exit `.invalid`; then regex length and
bytes (nonzero, NUL-terminated), mode (a 32-bit read in both version
branches, `mode_t` being 32-bit), stem id (signed, out-of-range
degrades to `-1`), metachars flag, prefix length (version-gated), and
the serialized compiled regex consumed by `regex_load_mmap`. -/
def spec_step (env : MmapEnv) (version : Nat) (archOk : Bool) (st : StemState) (r : Region) :
    SpecStepRes :=
  match next_u32 r with
  | none => .failed
  | some (clen, r) =>
    if clen = 0 then .failed else
    match next_entry r clen with
    | none => .failed
    | some (ctx, r) =>
      if ctx.getD (clen - 1) 1 ≠ 0 then .failed else
      if env.validating && decide (cstr ctx ≠ noneBytes) && !(env.validate ctx) then .invalid
      else
      match next_u32 r with
      | none => .failed
      | some (rlen, r) =>
        if rlen = 0 then .failed else
        match next_entry r rlen with
        | none => .failed
        | some (rx, r) =>
          if rx.getD (rlen - 1) 1 ≠ 0 then .failed else
          match next_u32 r with
          | none => .failed
          | some (mode, r) =>
            match next_u32 r with
            | none => .failed
            | some (sid, r) =>
              let sid32 := asInt32 sid
              let stem_id : Int :=
                if sid32 < 0 ∨ (st.map.length : Int) ≤ sid32 then -1
                else ((st.map.getD sid32.toNat 0 : Nat) : Int)
              match next_u32 r with
              | none => .failed
              | some (meta, r) =>
                if SELINUX_COMPILED_FCONTEXT_PREFIX_LEN ≤ version then
                  match next_u32 r with
                  | none => .failed
                  | some (plen, r) =>
                    match env.regexLoad r archOk with
                    | none => .failed
                    | some r' =>
                      .parsed ⟨cstr ctx, cstr rx, mode, stem_id, decide (meta ≠ 0), plen⟩ r'
                else
                  match env.regexLoad r archOk with
                  | none => .failed
                  | some r' =>
                    .parsed ⟨cstr ctx, cstr rx, mode, stem_id, decide (meta ≠ 0), 0⟩ r'

/-- The spec-loading loop: a hard step failure fails the walk; the
validation early exit stops the walk and reports success with the
specs accumulated so far (the C's `goto out` with `rc = 0`). -/
def specs_loop (env : MmapEnv) (version : Nat) (archOk : Bool) (st : StemState) :
    Nat → List BinSpec → Region → Option (List BinSpec)
  | 0, acc, _ => some acc
  | n + 1, acc, r =>
    match spec_step env version archOk st r with
    | .failed => none
    | .invalid => some acc
    | .parsed sp r' => specs_loop env version archOk st n (acc ++ [sp]) r'

/-- `load_mmap`: parse the header, the stem table (whose declared count
must be nonzero) and the spec array (whose declared count must be
nonzero); any read or format failure in any step fails the whole load,
while a context-validation failure inside the spec walk ends the load
successfully with the specs parsed so far. -/
def load_mmap (env : MmapEnv) (r : Region) : Option (List (List Nat) × List BinSpec) :=
  match parse_header env r with
  | none => none
  | some (version, archOk, r) =>
    match next_u32 r with
    | none => none
    | some (stem_map_len, r) =>
      if stem_map_len = 0 then none else
      match stems_loop stem_map_len ⟨[], []⟩ r with
      | none => none
      | some (st, r) =>
        match next_u32 r with
        | none => none
        | some (nspecs, r) =>
          if nspecs = 0 then none else
          match specs_loop env version archOk st nspecs [] r with
          | none => none
          | some sps => some (st.stems, sps)

/-! ## Concrete instances for counterexamples and witnesses -/

/-- A regex oracle on which every pattern fully matches every text. -/
def alwaysFull : List Char → List Char → Bool → RegexResult := fun _ _ _ => .fullMatch

/-- A compile oracle on which every pattern compiles. -/
def alwaysCompiles : List Char → Bool := fun _ => true

/-- Two regex specs that both match everything; the higher index must
win. -/
def demoH1 : Handle :=
  ⟨[], [⟨['a'], -1, 0, ['1'], true, 0⟩, ⟨['b'], -1, 0, ['2'], true, 0⟩],
    alwaysFull, alwaysCompiles⟩

/-- A single spec whose regex engine reports an error. -/
def demoH4 : Handle :=
  ⟨[], [⟨['a'], -1, 0, ['1'], true, 0⟩], fun _ _ _ => .errMatch, alwaysCompiles⟩

/-- A single spec carrying the `<<none>>` sentinel context. -/
def demoH6 : Handle :=
  ⟨[], [⟨['a'], -1, 0, noneCtx, true, 0⟩], alwaysFull, alwaysCompiles⟩

/-- The spec of the mode-filter counterexample: a rule restricted to
regular files (`mode = S_IFREG = 32768`). -/
def c7spec : Spec := ⟨['r'], -1, 32768, ['x'], true, 0⟩

def c7h : Handle := ⟨[], [c7spec], alwaysFull, alwaysCompiles⟩

/-- The spec of the best-match counterexample: a regex spec with
`prefix_len = 0`. -/
def c3spec : Spec := ⟨['r'], -1, 0, ['x'], true, 0⟩

/-- A handle on which only the key `"/b"` matches `c3spec`. -/
def c3h : Handle :=
  ⟨[], [c3spec],
    fun _ t _ => if t = ['/', 'b'] then .fullMatch else .noMatch,
    alwaysCompiles⟩

/-- A concrete loader environment for the binary-loader witness. -/
def demoEnv : MmapEnv := ⟨[49], [120], fun r _ => some r, false, fun _ => true⟩

/-- A validating loader environment whose `selabel_validate` rejects
exactly the context `"b"` (bytes `[98, 0]`). -/
def c9env : MmapEnv :=
  ⟨[49], [120], fun r _ => some r, true, fun c => decide (c ≠ [98, 0])⟩

/-- A version-1 compiled file with one stem (`"/"`) and a declared spec
count of 2.  Spec 1 is fully well formed but carries the context `"b"`,
which `c9env` refuses to validate.  Spec 2's regex string (bytes
`[47, 47]` at offset 56) lacks its trailing NUL -- one of the
malformations of the claim.  Offsets: magic 0, version 4, stem table
8-17, spec count 18, spec 1 at 22 (context at 26, regex at 32, mode 34,
stem id 38, metachars 42), spec 2 at 46 (context at 50, regex length
52, regex bytes 56). -/
def c9bytes : List Nat :=
  [138, 255, 124, 249,  1, 0, 0, 0,
   1, 0, 0, 0,  1, 0, 0, 0,  47, 0,
   2, 0, 0, 0,
   2, 0, 0, 0,  98, 0,  2, 0, 0, 0,  47, 0,
   0, 0, 0, 0,  0, 0, 0, 0,  0, 0, 0, 0,
   2, 0, 0, 0,  99, 0,  2, 0, 0, 0,  47, 47]

/-! # Theorems

First the characterization of the reverse scan, then the claims. -/

/-- If the scan returns index `i`, then spec `i` passed the filters,
compiled, and matched (fully, or partially in partial mode), and every
spec with a greater index within range either failed the filters or
compiled and cleanly failed to match. -/
theorem scanFrom_found (h : Handle) (q : Query) (pm : Bool) :
    ∀ n i, scanFrom h q pm n = .found i →
      i < n ∧
      specPasses q.fstem q.mode (h.specs.getD i default) = true ∧
      h.compileOk (h.specs.getD i default).regex_str = true ∧
      (h.rmatch (h.specs.getD i default).regex_str (matchTarget q (h.specs.getD i default)) pm =
          .fullMatch ∨
        (pm = true ∧
          h.rmatch (h.specs.getD i default).regex_str (matchTarget q (h.specs.getD i default)) pm =
            .partMatch)) ∧
      ∀ j, i < j → j < n → specPasses q.fstem q.mode (h.specs.getD j default) = true →
        h.compileOk (h.specs.getD j default).regex_str = true ∧
        h.rmatch (h.specs.getD j default).regex_str (matchTarget q (h.specs.getD j default)) pm =
          .noMatch := by
  intro n
  induction n with
  | zero => intro i hscan; simp [scanFrom] at hscan
  | succ n ih =>
    intro i hscan
    simp only [scanFrom] at hscan
    split at hscan
    · rename_i hp
      split at hscan
      · rename_i hc
        split at hscan
        · rename_i hfull
          cases hscan
          exact ⟨Nat.lt_succ_self n, hp, hc, Or.inl hfull, by omega⟩
        · rename_i hpart
          split at hscan
          · rename_i hpm
            cases hscan
            exact ⟨Nat.lt_succ_self n, hp, hc, Or.inr ⟨hpm, hpart⟩, by omega⟩
          · exact absurd hscan (by simp)
        · rename_i hno
          obtain ⟨hin, hpass, hcomp, hm, hall⟩ := ih i hscan
          refine ⟨by omega, hpass, hcomp, hm, ?_⟩
          intro j hij hjn hpj
          rcases Nat.lt_succ_iff_lt_or_eq.mp hjn with hj | rfl
          · exact hall j hij hj hpj
          · exact ⟨hc, hno⟩
        · exact absurd hscan (by simp)
      · exact absurd hscan (by simp)
    · rename_i hp
      obtain ⟨hin, hpass, hcomp, hm, hall⟩ := ih i hscan
      refine ⟨by omega, hpass, hcomp, hm, ?_⟩
      intro j hij hjn hpj
      rcases Nat.lt_succ_iff_lt_or_eq.mp hjn with hj | rfl
      · exact hall j hij hj hpj
      · exact absurd hpj hp

/-- Indices above `i` that pass the filters but cleanly fail to match
are skipped: the scan from `n` equals the scan from `i + 1`. -/
theorem scanFrom_skip (h : Handle) (q : Query) (pm : Bool) (i : Nat) :
    ∀ n, i < n →
      (∀ j, i < j → j < n → specPasses q.fstem q.mode (h.specs.getD j default) = true →
        h.compileOk (h.specs.getD j default).regex_str = true ∧
        h.rmatch (h.specs.getD j default).regex_str (matchTarget q (h.specs.getD j default)) pm =
          .noMatch) →
      scanFrom h q pm n = scanFrom h q pm (i + 1) := by
  intro n
  induction n with
  | zero => intro hlt _; omega
  | succ n ih =>
    intro hlt hskip
    rcases Nat.lt_succ_iff_lt_or_eq.mp hlt with h1 | rfl
    · have hstep : scanFrom h q pm (n + 1) = scanFrom h q pm n := by
        simp only [scanFrom]
        by_cases hp : specPasses q.fstem q.mode (h.specs.getD n default) = true
        · obtain ⟨hc, hm⟩ := hskip n h1 (Nat.lt_succ_self n) hp
          rw [if_pos hp, if_pos hc, hm]
        · rw [if_neg hp]
      rw [hstep]
      exact ih h1 (fun j hij hjn hp => hskip j hij (by omega) hp)
    · rfl

theorem lookup_raw_found (h : Handle) (key : List Char) (ty : Nat) (pm : Bool) (i : Nat)
    (hr : lookup_raw h key ty pm = .found i) :
    h.specs.length ≠ 0 ∧ scanFrom h (mkQuery h key ty) pm h.specs.length = .found i := by
  unfold lookup_raw at hr
  split at hr
  · exact absurd hr (by simp)
  · rename_i hne; exact ⟨hne, hr⟩

theorem lookup_common_found (h : Handle) (key : List Char) (ty : Nat) (pm : Bool) (i : Nat)
    (hlc : lookup_common h key ty pm = .found i) :
    lookup_raw h key ty pm = .found i ∧ (h.specs.getD i default).ctx_raw ≠ noneCtx := by
  unfold lookup_common at hlc
  cases hq : lookup_raw h key ty pm with
  | found j =>
    simp only [hq] at hlc
    split at hlc
    · exact absurd hlc (by simp)
    · rename_i hctx
      cases hlc
      exact ⟨rfl, hctx⟩
  | notFound => simp [hq] at hlc
  | err => simp [hq] at hlc

/-- C1 (last-match-wins): for every loaded handle, key and type mask,
the reverse scan returns the spec with the greatest array index (after
sorting) among all specs that pass the stem and mode filters and whose
regex fully matches the key.  Part one: a returned index passes the
filters and fully matches, and no greater in-range index both passes
the filters and fully matches.  Part two: an index that passes and
fully matches, above which every passing spec compiles and cleanly
fails to match, and whose context is not `<<none>>`, is exactly the
result. -/
theorem c1_last_match_wins (h : Handle) (key : List Char) (ty : Nat) :
    (∀ i, lookup_common h key ty false = .found i →
      i < h.specs.length ∧
      specPasses (mkQuery h key ty).fstem (mkQuery h key ty).mode (h.specs.getD i default) = true ∧
      h.rmatch (h.specs.getD i default).regex_str
        (matchTarget (mkQuery h key ty) (h.specs.getD i default)) false = .fullMatch ∧
      ∀ j, i < j → j < h.specs.length →
        specPasses (mkQuery h key ty).fstem (mkQuery h key ty).mode (h.specs.getD j default) =
          true →
        h.rmatch (h.specs.getD j default).regex_str
          (matchTarget (mkQuery h key ty) (h.specs.getD j default)) false ≠ .fullMatch) ∧
    (∀ i, i < h.specs.length →
      specPasses (mkQuery h key ty).fstem (mkQuery h key ty).mode (h.specs.getD i default) = true →
      h.compileOk (h.specs.getD i default).regex_str = true →
      h.rmatch (h.specs.getD i default).regex_str
        (matchTarget (mkQuery h key ty) (h.specs.getD i default)) false = .fullMatch →
      (∀ j, i < j → j < h.specs.length →
        specPasses (mkQuery h key ty).fstem (mkQuery h key ty).mode (h.specs.getD j default) =
          true →
        h.compileOk (h.specs.getD j default).regex_str = true ∧
        h.rmatch (h.specs.getD j default).regex_str
          (matchTarget (mkQuery h key ty) (h.specs.getD j default)) false = .noMatch) →
      (h.specs.getD i default).ctx_raw ≠ noneCtx →
      lookup_common h key ty false = .found i) := by
  constructor
  · intro i hres
    obtain ⟨hraw, -⟩ := lookup_common_found h key ty false i hres
    obtain ⟨-, hscan⟩ := lookup_raw_found h key ty false i hraw
    obtain ⟨hin, hpass, hcomp, hm, hall⟩ := scanFrom_found h (mkQuery h key ty) false _ i hscan
    have hfull : h.rmatch (h.specs.getD i default).regex_str
        (matchTarget (mkQuery h key ty) (h.specs.getD i default)) false = .fullMatch := by
      rcases hm with hm | ⟨hpm, -⟩
      · exact hm
      · exact absurd hpm (by simp)
    refine ⟨hin, hpass, hfull, ?_⟩
    intro j hij hjn hpj
    rw [(hall j hij hjn hpj).2]
    simp
  · intro i hi hp hc hm habove hctx
    have hraw : lookup_raw h key ty false = .found i := by
      unfold lookup_raw
      rw [if_neg (by omega : ¬ h.specs.length = 0)]
      rw [scanFrom_skip h (mkQuery h key ty) false i h.specs.length hi habove]
      simp only [scanFrom]
      rw [if_pos hp, if_pos hc, hm]
    unfold lookup_common
    rw [hraw]
    show (if (h.specs.getD i default).ctx_raw = noneCtx then Outcome.notFound
      else Outcome.found i) = Outcome.found i
    rw [if_neg hctx]

/-- Witness for C1 on a concrete handle: two specs that both match; the
spec at the greater index 1 is returned, passes the filters and fully
matches. -/
theorem c1_witness :
    lookup_common demoH1 ['/', 'k'] 0 false = .found 1 ∧
    specPasses (mkQuery demoH1 ['/', 'k'] 0).fstem (mkQuery demoH1 ['/', 'k'] 0).mode
      (demoH1.specs.getD 1 default) = true ∧
    demoH1.rmatch (demoH1.specs.getD 1 default).regex_str
      (matchTarget (mkQuery demoH1 ['/', 'k'] 0) (demoH1.specs.getD 1 default)) false =
      .fullMatch :=
  ⟨by decide, ((c1_last_match_wins demoH1 ['/', 'k'] 0).1 1 (by decide)).2.1,
    ((c1_last_match_wins demoH1 ['/', 'k'] 0).1 1 (by decide)).2.2.1⟩

/-- C2 (exact-beats-regex): when the spec store is the result of
`sort_specs` on two loaded specs -- one exact, one regex, loaded in
either order -- and both pass the filters and fully match the key, the
lookup returns the exact spec's label.  `sort_specs` is modelled from
the spec (it is called at line 675 but defined outside the given
sources). -/
theorem c2_exact_beats_regex (h : Handle) (e r : Spec) (l : List Spec) (key : List Char)
    (ty : Nat)
    (hspecs : h.specs = sort_specs l)
    (hl : l = [e, r] ∨ l = [r, e])
    (he : e.hasMetaChars = false) (hr : r.hasMetaChars = true)
    (hpe : specPasses (mkQuery h key ty).fstem (mkQuery h key ty).mode e = true)
    (hce : h.compileOk e.regex_str = true)
    (hme : h.rmatch e.regex_str (matchTarget (mkQuery h key ty) e) false = .fullMatch)
    (hpr : specPasses (mkQuery h key ty).fstem (mkQuery h key ty).mode r = true)
    (hcr : h.compileOk r.regex_str = true)
    (hmr : h.rmatch r.regex_str (matchTarget (mkQuery h key ty) r) false = .fullMatch)
    (hctx : e.ctx_raw ≠ noneCtx) :
    lookup h key ty = some e := by
  have h2 : h.specs = [r, e] := by
    rcases hl with rfl | rfl <;> simp [hspecs, sort_specs, List.filter, he, hr]
  have hlen : h.specs.length = 2 := by rw [h2]; rfl
  have hget1 : h.specs.getD 1 default = e := by rw [h2]; rfl
  have hraw : lookup_raw h key ty false = .found 1 := by
    unfold lookup_raw
    rw [hlen]
    rw [if_neg (by decide : ¬ (2 : Nat) = 0)]
    simp only [scanFrom]
    rw [hget1, if_pos hpe, if_pos hce, hme]
  have hcommon : lookup_common h key ty false = .found 1 := by
    unfold lookup_common
    rw [hraw]
    show (if (h.specs.getD 1 default).ctx_raw = noneCtx then Outcome.notFound
      else Outcome.found 1) = Outcome.found 1
    rw [hget1, if_neg hctx]
  unfold lookup
  rw [hcommon]
  show some (h.specs.getD 1 default) = some e
  rw [hget1]

/-- Witness for C2: an exact spec and a regex spec that both match;
whatever the load order, the exact spec's label is returned. -/
theorem c2_witness :
    lookup ⟨[], sort_specs [⟨['e'], -1, 0, ['E'], false, 0⟩, ⟨['r'], -1, 0, ['R'], true, 0⟩],
        alwaysFull, alwaysCompiles⟩ ['/', 'k'] 0 = some ⟨['e'], -1, 0, ['E'], false, 0⟩ :=
  c2_exact_beats_regex _ ⟨['e'], -1, 0, ['E'], false, 0⟩ ⟨['r'], -1, 0, ['R'], true, 0⟩ _
    ['/', 'k'] 0 rfl (Or.inl rfl) rfl rfl (by decide) rfl rfl (by decide) rfl rfl (by decide)

/-- C4 (regex-engine error aborts the lookup): if the first spec the
reverse scan reaches that does anything other than cleanly fail is one
on which the regex engine reports an error, the whole lookup aborts
(the InternalError path): no label is returned and no older spec is
consulted, whatever specs lie below. -/
theorem c4_regex_error_aborts (h : Handle) (key : List Char) (ty : Nat) (i : Nat)
    (hi : i < h.specs.length)
    (hp : specPasses (mkQuery h key ty).fstem (mkQuery h key ty).mode (h.specs.getD i default) =
      true)
    (hc : h.compileOk (h.specs.getD i default).regex_str = true)
    (he : h.rmatch (h.specs.getD i default).regex_str
      (matchTarget (mkQuery h key ty) (h.specs.getD i default)) false = .errMatch)
    (habove : ∀ j, i < j → j < h.specs.length →
      specPasses (mkQuery h key ty).fstem (mkQuery h key ty).mode (h.specs.getD j default) =
        true →
      h.compileOk (h.specs.getD j default).regex_str = true ∧
      h.rmatch (h.specs.getD j default).regex_str
        (matchTarget (mkQuery h key ty) (h.specs.getD j default)) false = .noMatch) :
    lookup_common h key ty false = .err ∧ lookup h key ty = none := by
  have hraw : lookup_raw h key ty false = .err := by
    unfold lookup_raw
    rw [if_neg (by omega : ¬ h.specs.length = 0)]
    rw [scanFrom_skip h (mkQuery h key ty) false i h.specs.length hi habove]
    simp only [scanFrom]
    rw [if_pos hp, if_pos hc, he]
  have hcommon : lookup_common h key ty false = .err := by
    unfold lookup_common
    rw [hraw]
  refine ⟨hcommon, ?_⟩
  unfold lookup
  rw [hcommon]

/-- Witness for C4: a single spec on which the engine errors; the
lookup aborts with no label. -/
theorem c4_witness :
    lookup_common demoH4 ['/', 'k'] 0 false = .err ∧ lookup demoH4 ['/', 'k'] 0 = none :=
  c4_regex_error_aborts demoH4 ['/', 'k'] 0 0 (by decide) (by decide) (by decide) (by decide)
    (by intro j hj hj1 hp; have hlen : demoH4.specs.length = 1 := rfl; omega)

/-- C6 (`<<none>>` sentinel): if the spec chosen by the reverse scan
carries the raw context `<<none>>`, `lookup_common` reports `NotFound`
(the code path sets `ENOENT` and returns no spec, without logging). -/
theorem c6_none_sentinel (h : Handle) (key : List Char) (ty : Nat) (pm : Bool) (i : Nat)
    (hr : lookup_raw h key ty pm = .found i)
    (hctx : (h.specs.getD i default).ctx_raw = noneCtx) :
    lookup_common h key ty pm = .notFound := by
  unfold lookup_common
  rw [hr]
  show (if (h.specs.getD i default).ctx_raw = noneCtx then Outcome.notFound
    else Outcome.found i) = Outcome.notFound
  rw [if_pos hctx]

/-- Witness for C6: a matching spec whose context is `<<none>>`; the
scan chooses it, yet the lookup reports `NotFound`. -/
theorem c6_witness :
    lookup_raw demoH6 ['/', 'k'] 0 false = .found 0 ∧
    lookup_common demoH6 ['/', 'k'] 0 false = .notFound :=
  ⟨by decide, c6_none_sentinel demoH6 ['/', 'k'] 0 false 0 (by decide) (by decide)⟩

/-- Counterexample to C7 as stated: a spec restricted to regular files
(`mode = S_IFREG`) is returned for a lookup whose type mask has
file-type bits `0`, which differ from `S_IFREG`; the mode filter is
bypassed when the key's masked mode is zero. -/
theorem c7_counterexample :
    lookup c7h ['/', 'a'] 0 = some c7spec ∧ c7spec.mode ≠ 0 ∧ 0 &&& S_IFMT ≠ c7spec.mode := by
  refine ⟨by decide, by decide, by decide⟩

/-- C7 as amended: a spec whose mode `M` is non-zero is never returned
for a key whose file-type bits are non-zero and differ from `M` (when
the key's file-type bits are zero the mode filter is bypassed). -/
theorem c7_mode_filter_amended (h : Handle) (key : List Char) (ty : Nat) (pm : Bool) (i : Nat)
    (hres : lookup_common h key ty pm = .found i)
    (hm : (h.specs.getD i default).mode ≠ 0)
    (hk : ty &&& S_IFMT ≠ 0) :
    ty &&& S_IFMT = (h.specs.getD i default).mode := by
  obtain ⟨hraw, -⟩ := lookup_common_found h key ty pm i hres
  obtain ⟨-, hscan⟩ := lookup_raw_found h key ty pm i hraw
  obtain ⟨-, hpass, -, -, -⟩ := scanFrom_found h (mkQuery h key ty) pm _ i hscan
  unfold specPasses at hpass
  have hmode : (mkQuery h key ty).mode = ty &&& S_IFMT := rfl
  rw [hmode] at hpass
  simp only [Bool.and_eq_true, Bool.or_eq_true, decide_eq_true_eq] at hpass
  rcases hpass.2 with (h0 | h0) | h0
  · exact absurd h0 hk
  · exact absurd h0 hm
  · exact h0

/-- Witness for the amended C7: with matching non-zero file-type bits
the spec is returned and the bits agree with its mode. -/
theorem c7_witness :
    lookup_common c7h ['/', 'a'] 32768 false = .found 0 ∧
    32768 &&& S_IFMT = (c7h.specs.getD 0 default).mode :=
  ⟨by decide,
    c7_mode_filter_amended c7h ['/', 'a'] 32768 false 0 (by decide) (by decide) (by decide)⟩

/-- C10 (implicit): `lookup_best_match` with an empty alias list (a NULL
alias array, or one whose first entry is NULL) is exactly `lookup`. -/
theorem c10_best_match_no_aliases (h : Handle) (key : List Char) (ty : Nat) :
    lookup_best_match h key [] ty = lookup h key ty := rfl

/-! ### Slash canonicalization (C5) -/

theorem findDS_lt : ∀ (s : List Char) (i : Nat), findDS s = some i → i + 1 < s.length := by
  intro s
  induction s with
  | nil => intro i h; simp [findDS] at h
  | cons a rest ih =>
    intro i h
    match rest, h with
    | [], h => simp [findDS] at h
    | b :: r2, h =>
      rw [findDS] at h
      split at h
      · cases h; simp
      · simp only [Option.map_eq_some'] at h
        obtain ⟨j, hj, rfl⟩ := h
        have := ih j hj
        simpa [Nat.succ_lt_succ_iff] using this

theorem findDS_cons_none {a b : Char} {rest : List Char}
    (h : findDS (a :: b :: rest) = none) :
    ¬(a = '/' ∧ b = '/') ∧ findDS (b :: rest) = none := by
  rw [findDS] at h
  split at h
  · exact absurd h (by simp)
  · rename_i hab
    simp only [Option.map_eq_none'] at h
    exact ⟨hab, h⟩

theorem collapseAux_true_false : ∀ (s : List Char), s.head? ≠ some '/' →
    collapseAux true s = collapseAux false s := by
  intro s h
  cases s with
  | nil => rfl
  | cons c rest =>
    have hc : ¬ c = '/' := by simpa using h
    simp [collapseAux, hc]

theorem collapse_noDS : ∀ (s : List Char), findDS s = none → collapseAux false s = s := by
  intro s
  induction s with
  | nil => intro _; rfl
  | cons a rest ih =>
    intro h
    cases rest with
    | nil => by_cases ha : a = '/' <;> simp [collapseAux, ha]
    | cons b r2 =>
      obtain ⟨hab, hrest⟩ := findDS_cons_none h
      have hr := ih hrest
      by_cases ha : a = '/'
      · subst ha
        have hb : ¬ b = '/' := fun hb => hab ⟨rfl, hb⟩
        rw [show collapseAux false ('/' :: b :: r2) = '/' :: collapseAux true (b :: r2) by
          simp [collapseAux]]
        rw [collapseAux_true_false (b :: r2) (by simp [hb]), hr]
      · rw [show collapseAux false (a :: b :: r2) = a :: collapseAux false (b :: r2) by
          simp [collapseAux, ha]]
        rw [hr]

theorem collapseAux_split : ∀ (s : List Char) (i : Nat), findDS s = some i →
    collapseAux false s = s.take i ++ collapseAux false (s.drop (i + 1)) := by
  intro s
  induction s with
  | nil => intro i h; simp [findDS] at h
  | cons a rest ih =>
    intro i h
    match rest, h with
    | [], h => simp [findDS] at h
    | b :: r2, h =>
      rw [findDS] at h
      split at h
      · rename_i hab
        cases h
        obtain ⟨rfl, rfl⟩ := hab
        show collapseAux false ('/' :: '/' :: r2) = [] ++ collapseAux false ('/' :: r2)
        simp [collapseAux]
      · rename_i hab
        simp only [Option.map_eq_some'] at h
        obtain ⟨j, hj, rfl⟩ := h
        have ihj := ih j hj
        by_cases ha : a = '/'
        · subst ha
          have hb : ¬ b = '/' := fun hb => hab ⟨rfl, hb⟩
          rw [show collapseAux false ('/' :: b :: r2) = '/' :: collapseAux true (b :: r2) by
            simp [collapseAux]]
          rw [collapseAux_true_false (b :: r2) (by simp [hb])]
          rw [ihj]
          simp [List.take_succ_cons, List.drop_succ_cons]
        · rw [show collapseAux false (a :: b :: r2) = a :: collapseAux false (b :: r2) by
            simp [collapseAux, ha]]
          rw [ihj]
          simp [List.take_succ_cons, List.drop_succ_cons]

theorem collapse_go_eq : ∀ (fuel : Nat) (s : List Char), s.length ≤ fuel →
    collapse_go fuel s = collapseAux false s := by
  intro fuel
  induction fuel with
  | zero =>
    intro s hs
    have hnil : s = [] := List.length_eq_zero.mp (Nat.le_zero.mp hs)
    subst hnil; rfl
  | succ fuel ih =>
    intro s hs
    cases s with
    | nil => rfl
    | cons a rest =>
      rw [show collapse_go (fuel + 1) (a :: rest) = (match findDS (a :: rest) with
        | none => a :: rest
        | some i => (a :: rest).take i ++ collapse_go fuel ((a :: rest).drop (i + 1)))
        from rfl]
      cases hds : findDS (a :: rest) with
      | none => rw [collapse_noDS _ hds]
      | some i =>
        have hlt := findDS_lt (a :: rest) i hds
        show (a :: rest).take i ++ collapse_go fuel ((a :: rest).drop (i + 1)) =
          collapseAux false (a :: rest)
        rw [ih ((a :: rest).drop (i + 1)) (by
          have h1 : (a :: rest).length = rest.length + 1 := rfl
          simp only [List.length_drop]
          omega)]
        rw [← collapseAux_split (a :: rest) i hds]

/-- The duplicate-slash removal loop computes exactly the canonical
run-collapse. -/
theorem collapse_c_eq (s : List Char) : collapse_c s = collapseAux false s :=
  collapse_go_eq s.length s (Nat.le_refl _)

/-- Collapsing is invariant under duplicating a slash. -/
theorem collapse_dup : ∀ (x : List Char) (p : Bool) (y : List Char),
    collapseAux p (x ++ '/' :: '/' :: y) = collapseAux p (x ++ '/' :: y) := by
  intro x
  induction x with
  | nil =>
    intro p y
    cases p <;> simp [collapseAux]
  | cons d x' ih =>
    intro p y
    by_cases hd : d = '/'
    · subst hd
      rw [show ('/' :: x') ++ '/' :: '/' :: y = '/' :: (x' ++ '/' :: '/' :: y) from rfl]
      rw [show ('/' :: x') ++ '/' :: y = '/' :: (x' ++ '/' :: y) from rfl]
      cases p
      · rw [show collapseAux false ('/' :: (x' ++ '/' :: '/' :: y)) =
          '/' :: collapseAux true (x' ++ '/' :: '/' :: y) by simp [collapseAux]]
        rw [show collapseAux false ('/' :: (x' ++ '/' :: y)) =
          '/' :: collapseAux true (x' ++ '/' :: y) by simp [collapseAux]]
        rw [ih true y]
      · rw [show collapseAux true ('/' :: (x' ++ '/' :: '/' :: y)) =
          collapseAux true (x' ++ '/' :: '/' :: y) by simp [collapseAux]]
        rw [show collapseAux true ('/' :: (x' ++ '/' :: y)) =
          collapseAux true (x' ++ '/' :: y) by simp [collapseAux]]
        rw [ih true y]
    · rw [show (d :: x') ++ '/' :: '/' :: y = d :: (x' ++ '/' :: '/' :: y) from rfl]
      rw [show (d :: x') ++ '/' :: y = d :: (x' ++ '/' :: y) from rfl]
      rw [show collapseAux p (d :: (x' ++ '/' :: '/' :: y)) =
        d :: collapseAux false (x' ++ '/' :: '/' :: y) by simp [collapseAux, hd]]
      rw [show collapseAux p (d :: (x' ++ '/' :: y)) =
        d :: collapseAux false (x' ++ '/' :: y) by simp [collapseAux, hd]]
      rw [ih false y]

/-- Lookup depends on the key only through its canonicalized form. -/
theorem lookup_key_congr (h : Handle) (k1 k2 : List Char) (ty : Nat)
    (hck : collapse_c k1 = collapse_c k2) : lookup h k1 ty = lookup h k2 ty := by
  have hq : mkQuery h k1 ty = mkQuery h k2 ty := by unfold mkQuery; rw [hck]
  unfold lookup lookup_common lookup_raw
  rw [hq]

/-- C5 (slash canonicalization): `lookup h (a//b///c) m = lookup h
(a/b/c) m` for all `a`, `b`, `c`, `m`; and the key cleanup of
`lookup_common` collapses every run of consecutive slashes to a single
slash and does not otherwise modify the key (it equals the canonical
one-pass run-collapse `collapseAux false`). -/
theorem c5_slash_canonicalization :
    (∀ (h : Handle) (a b c : List Char) (ty : Nat),
      lookup h (a ++ '/' :: '/' :: (b ++ '/' :: '/' :: '/' :: c)) ty =
        lookup h (a ++ '/' :: (b ++ '/' :: c)) ty) ∧
    ∀ key : List Char, collapse_c key = collapseAux false key := by
  constructor
  · intro h a b c ty
    apply lookup_key_congr
    rw [collapse_c_eq, collapse_c_eq]
    rw [collapse_dup a]
    rw [show a ++ '/' :: (b ++ '/' :: '/' :: '/' :: c) =
      (a ++ '/' :: b) ++ '/' :: '/' :: '/' :: c by simp]
    rw [collapse_dup (a ++ '/' :: b)]
    rw [collapse_dup (a ++ '/' :: b)]
    rw [show (a ++ '/' :: b) ++ '/' :: c = a ++ '/' :: (b ++ '/' :: c) by simp]
  · exact collapse_c_eq

/-! ### Best-match selection (C3) -/

theorem hitsOf_nil : hitsOf [] = [] := rfl

theorem hitsOf_cons_none (ps : List (Option Spec)) : hitsOf (none :: ps) = hitsOf ps := by
  simp [hitsOf]

theorem hitsOf_cons_some (s : Spec) (ps : List (Option Spec)) :
    hitsOf (some s :: ps) = s :: hitsOf ps := by
  simp [hitsOf]

theorem plenMax_cons (s : Spec) (l : List Spec) :
    plenMax (s :: l) = max s.prefix_len (plenMax l) := rfl

theorem firstWithPlen_cons (m : Nat) (s : Spec) (l : List Spec) :
    firstWithPlen m (s :: l) = if s.prefix_len = m then some s else firstWithPlen m l := by
  by_cases hs : s.prefix_len = m
  · rw [firstWithPlen, List.find?_cons_of_pos _ (by simp [hs]), if_pos hs]
  · rw [firstWithPlen, List.find?_cons_of_neg _ (by simp [hs]), if_neg hs]; rfl

/-- The alias loop of `lookup_best_match`, expressed over the probe
results. -/
theorem bestLoop_eq (h : Handle) (ty : Nat) :
    ∀ (as : List (List Char)) (best : Option Spec) (plen : Nat),
      bestLoop h ty as best plen = foldBest (as.map (fun a => lookup h a ty)) best plen := by
  intro as
  induction as with
  | nil => intro best plen; rfl
  | cons a rest ih =>
    intro best plen
    rw [bestLoop, List.map_cons]
    cases hp : lookup h a ty with
    | none => exact ih best plen
    | some s =>
      show (if s.hasMetaChars = false then some s
        else if plen < s.prefix_len then bestLoop h ty rest (some s) s.prefix_len
        else bestLoop h ty rest best plen) =
        (if s.hasMetaChars = false then some s
          else if plen < s.prefix_len then
            foldBest (rest.map (fun a => lookup h a ty)) (some s) s.prefix_len
          else foldBest (rest.map (fun a => lookup h a ty)) best plen)
      by_cases hmeta : s.hasMetaChars = false
      · rw [if_pos hmeta, if_pos hmeta]
      · rw [if_neg hmeta, if_neg hmeta]
        by_cases hplen : plen < s.prefix_len
        · rw [if_pos hplen, if_pos hplen]; exact ih (some s) s.prefix_len
        · rw [if_neg hplen, if_neg hplen]; exact ih best plen

/-- Closed form of the fold: the first exact hit wins; otherwise the
first hit whose `prefix_len` equals the maximum wins, provided that
maximum strictly exceeds the seed `plen`; otherwise the seed `best`
stands. -/
theorem foldBest_eq :
    ∀ (ps : List (Option Spec)) (best : Option Spec) (plen : Nat),
      foldBest ps best plen =
        match firstExactHit ps with
        | some s => some s
        | none =>
          if plen < plenMax (hitsOf ps) then firstWithPlen (plenMax (hitsOf ps)) (hitsOf ps)
          else best := by
  intro ps
  induction ps with
  | nil =>
    intro best plen
    simp [foldBest, firstExactHit, hitsOf, plenMax]
  | cons p rest ih =>
    intro best plen
    cases p with
    | none =>
      rw [foldBest, ih best plen]
      rw [show firstExactHit (none :: rest) = firstExactHit rest from rfl, hitsOf_cons_none]
    | some s =>
      by_cases hmeta : s.hasMetaChars = false
      · rw [foldBest, if_pos hmeta]
        rw [show firstExactHit (some s :: rest) =
          (if s.hasMetaChars = false then some s else firstExactHit rest) from rfl]
        rw [if_pos hmeta]
      · rw [foldBest, if_neg hmeta]
        rw [show firstExactHit (some s :: rest) =
          (if s.hasMetaChars = false then some s else firstExactHit rest) from rfl]
        rw [if_neg hmeta, hitsOf_cons_some, plenMax_cons]
        cases hfe : firstExactHit rest with
        | some e =>
          by_cases hplen : plen < s.prefix_len
          · rw [if_pos hplen, ih (some s) s.prefix_len, hfe]
          · rw [if_neg hplen, ih best plen, hfe]
        | none =>
          by_cases hplen : plen < s.prefix_len
          · rw [if_pos hplen, ih (some s) s.prefix_len, hfe]
            rcases Nat.lt_or_ge s.prefix_len (plenMax (hitsOf rest)) with hsm | hsm
            · rw [if_pos hsm]
              rw [Nat.max_eq_right (Nat.le_of_lt hsm)]
              rw [if_pos (by omega : plen < plenMax (hitsOf rest))]
              rw [firstWithPlen_cons, if_neg (by omega)]
            · rw [if_neg (by omega : ¬ s.prefix_len < plenMax (hitsOf rest))]
              rw [Nat.max_eq_left hsm]
              rw [if_pos hplen]
              rw [firstWithPlen_cons, if_pos rfl]
          · rw [if_neg hplen, ih best plen, hfe]
            rcases Nat.lt_or_ge plen (plenMax (hitsOf rest)) with hpm | hpm
            · rw [if_pos hpm]
              have hs : s.prefix_len < plenMax (hitsOf rest) := by omega
              rw [Nat.max_eq_right (Nat.le_of_lt hs)]
              rw [if_pos hpm]
              rw [firstWithPlen_cons, if_neg (by omega)]
            · rw [if_neg (by omega : ¬ plen < plenMax (hitsOf rest))]
              rw [if_neg (by
                rcases Nat.le_total s.prefix_len (plenMax (hitsOf rest)) with hle | hle
                · rw [Nat.max_eq_right hle]; omega
                · rw [Nat.max_eq_left hle]; omega)]

/-- Counterexample to C3 as stated: the key's probe misses, the alias's
probe hits a (non-exact) spec with `prefix_len = 0` -- the strictly
greatest prefix length among all hits -- yet `lookup_best_match`
returns `NotFound`, because the running best starts at prefix length
`0` and is only replaced on a strict increase. -/
theorem c3_counterexample :
    lookup c3h ['/', 'b'] 0 = some c3spec ∧
    lookup c3h ['/', 'a'] 0 = none ∧
    lookup_best_match c3h ['/', 'a'] [['/', 'b']] 0 = none := by
  refine ⟨by decide, by decide, by decide⟩

/-- C3 as amended: with a non-empty alias list, the key and each alias
are probed in order; the first probe yielding an exact spec wins
immediately; otherwise the hit whose `prefix_len` is strictly greatest
wins, ties resolving to the key and then to the earlier alias, except
that an alias hit whose `prefix_len` is `0` is never selected when the
key's probe misses (if every hit then has `prefix_len = 0`, the result
is `NotFound`).  `bestSpecRef` states exactly this selection rule. -/
theorem c3_best_match_amended (h : Handle) (key : List Char) (aliases : List (List Char))
    (ty : Nat) (hne : aliases ≠ []) :
    lookup_best_match h key aliases ty =
      bestSpecRef ((key :: aliases).map (fun a => lookup h a ty)) := by
  unfold lookup_best_match
  rw [if_neg (by simpa using hne)]
  rw [List.map_cons]
  cases hk : lookup h key ty with
  | none =>
    rw [bestLoop_eq, foldBest_eq]
    rw [show bestSpecRef (none :: aliases.map (fun a => lookup h a ty)) =
      (match firstExactHit (none :: aliases.map (fun a => lookup h a ty)) with
      | some s => some s
      | none =>
        if plenMax (hitsOf (none :: aliases.map (fun a => lookup h a ty))) = 0 then none
        else firstWithPlen (plenMax (hitsOf (none :: aliases.map (fun a => lookup h a ty))))
          (hitsOf (aliases.map (fun a => lookup h a ty)))) from rfl]
    rw [show firstExactHit (none :: aliases.map (fun a => lookup h a ty)) =
      firstExactHit (aliases.map (fun a => lookup h a ty)) from rfl]
    rw [hitsOf_cons_none]
    cases hfe : firstExactHit (aliases.map (fun a => lookup h a ty)) with
    | some e => rfl
    | none =>
      rcases Nat.eq_zero_or_pos (plenMax (hitsOf (aliases.map (fun a => lookup h a ty)))) with
        hz | hz
      · rw [if_neg (by omega), if_pos hz]
      · rw [if_pos hz, if_neg (by omega)]
  | some s0 =>
    show (if s0.hasMetaChars = false then some s0
      else bestLoop h ty aliases (some s0) s0.prefix_len) =
      bestSpecRef (some s0 :: aliases.map (fun a => lookup h a ty))
    by_cases hmeta : s0.hasMetaChars = false
    · rw [if_pos hmeta]
      rw [show bestSpecRef (some s0 :: aliases.map (fun a => lookup h a ty)) =
        (match firstExactHit (some s0 :: aliases.map (fun a => lookup h a ty)) with
        | some s => some s
        | none =>
          if s0.prefix_len = plenMax (hitsOf (some s0 :: aliases.map (fun a => lookup h a ty)))
          then some s0
          else firstWithPlen
            (plenMax (hitsOf (some s0 :: aliases.map (fun a => lookup h a ty))))
            (hitsOf (aliases.map (fun a => lookup h a ty)))) from rfl]
      rw [show firstExactHit (some s0 :: aliases.map (fun a => lookup h a ty)) =
        (if s0.hasMetaChars = false then some s0
          else firstExactHit (aliases.map (fun a => lookup h a ty))) from rfl]
      rw [if_pos hmeta]
    · rw [if_neg hmeta]
      rw [bestLoop_eq, foldBest_eq]
      rw [show bestSpecRef (some s0 :: aliases.map (fun a => lookup h a ty)) =
        (match firstExactHit (some s0 :: aliases.map (fun a => lookup h a ty)) with
        | some s => some s
        | none =>
          if s0.prefix_len = plenMax (hitsOf (some s0 :: aliases.map (fun a => lookup h a ty)))
          then some s0
          else firstWithPlen
            (plenMax (hitsOf (some s0 :: aliases.map (fun a => lookup h a ty))))
            (hitsOf (aliases.map (fun a => lookup h a ty)))) from rfl]
      rw [show firstExactHit (some s0 :: aliases.map (fun a => lookup h a ty)) =
        (if s0.hasMetaChars = false then some s0
          else firstExactHit (aliases.map (fun a => lookup h a ty))) from rfl]
      rw [if_neg hmeta, hitsOf_cons_some, plenMax_cons]
      cases hfe : firstExactHit (aliases.map (fun a => lookup h a ty)) with
      | some e => rfl
      | none =>
        rcases Nat.lt_or_ge s0.prefix_len (plenMax (hitsOf (aliases.map (fun a => lookup h a ty))))
          with hsm | hsm
        · rw [if_pos hsm]
          rw [Nat.max_eq_right (Nat.le_of_lt hsm)]
          rw [if_neg (by omega :
            ¬ s0.prefix_len = plenMax (hitsOf (aliases.map (fun a => lookup h a ty))))]
        · rw [if_neg (by omega :
            ¬ s0.prefix_len < plenMax (hitsOf (aliases.map (fun a => lookup h a ty))))]
          rw [Nat.max_eq_left hsm]
          rw [if_pos rfl]

/-! ### Specfile resolution (C8) -/

theorem pickLoop_isSome (oo : Bool) :
    ∀ (l : List (Option Int)) (i : Nat) (f : Nat × Int),
      (pickLoop oo i l (some f)).isSome = true := by
  intro l
  induction l with
  | nil => intro i f; rfl
  | cons x rest ih =>
    intro i f
    cases x with
    | none => exact ih (i + 1) f
    | some m =>
      obtain ⟨fi, fm⟩ := f
      show (if Bool.xor oo (decide (fm ≤ m)) then pickLoop oo (i + 1) rest (some (i, m))
        else pickLoop oo (i + 1) rest (some (fi, fm))).isSome = true
      by_cases hx : Bool.xor oo (decide (fm ≤ m)) = true
      · rw [if_pos hx]; exact ih (i + 1) (i, m)
      · rw [if_neg hx]; exact ih (i + 1) (fi, fm)

theorem pickLoop_none_iff (oo : Bool) :
    ∀ (l : List (Option Int)) (i : Nat),
      pickLoop oo i l none = none ↔ ∀ x ∈ l, x = none := by
  intro l
  induction l with
  | nil => intro i; simp [pickLoop]
  | cons x rest ih =>
    intro i
    cases x with
    | none => simp [pickLoop, ih (i + 1)]
    | some m =>
      simp only [pickLoop]
      constructor
      · intro hp
        have hs := pickLoop_isSome oo rest (i + 1) (i, m)
        rw [hp] at hs
        simp at hs
      · intro hall
        have := hall (some m) (by simp)
        simp at this

theorem open_file_none_iff (oo : Bool) (stats : List (Option Int)) :
    open_file oo stats = none ↔ ∀ x ∈ stats, x = none :=
  pickLoop_none_iff oo stats 0

/-- C8 (specfile resolution): over the two candidates (plain and
`.bin`), stated through their stat results: with both present, the
first pass picks the latest mtime, ties going to the later (`.bin`)
entry; the second pass (inverted comparison) picks the oldest; a lone
candidate is picked either way; no candidate is ENOENT.  And
`process_file` fails exactly when the newest-candidate pass and the
oldest-candidate pass both fail (each pass failing when it opens
nothing or its load fails). -/
theorem c8_specfile_resolution :
    (∀ m0 m1 : Int,
      open_file false [some m0, some m1] = some (if m0 ≤ m1 then (1, m1) else (0, m0))) ∧
    (∀ m0 m1 : Int,
      open_file true [some m0, some m1] = some (if m1 < m0 then (1, m1) else (0, m0))) ∧
    (∀ m : Int, open_file false [some m, none] = some (0, m) ∧
      open_file false [none, some m] = some (1, m) ∧
      open_file true [some m, none] = some (0, m) ∧
      open_file true [none, some m] = some (1, m)) ∧
    (∀ oo : Bool, open_file oo [none, none] = none) ∧
    (∀ (stats : List (Option Int)) (loadOk : Nat → Bool),
      process_file stats loadOk = false ↔
        ((∀ p : Nat × Int, open_file false stats = some p → loadOk p.1 = false) ∧
          (∀ p : Nat × Int, open_file true stats = some p → loadOk p.1 = false))) := by
  refine ⟨?_, ?_, ?_, ?_, ?_⟩
  · intro m0 m1
    by_cases hm : m0 ≤ m1
    · simp [open_file, pickLoop, hm]
    · simp [open_file, pickLoop, hm]
  · intro m0 m1
    by_cases hm : m0 ≤ m1
    · have hx : ¬ m1 < m0 := by omega
      simp [open_file, pickLoop, hm, hx]
    · have hx : m1 < m0 := by omega
      simp [open_file, pickLoop, hm, hx]
  · intro m; refine ⟨rfl, rfl, rfl, rfl⟩
  · intro oo; cases oo <;> rfl
  · intro stats loadOk
    unfold process_file
    cases ho : open_file false stats with
    | none =>
      have ht : open_file true stats = none := by
        rw [open_file_none_iff]
        exact (open_file_none_iff false stats).mp ho
      rw [ht]
      constructor
      · intro _
        refine ⟨?_, ?_⟩ <;> rintro p hp <;> exact absurd hp (by simp)
      · intro _; rfl
    | some p =>
      obtain ⟨i, m⟩ := p
      show (if loadOk i = true then true
        else match open_file true stats with
          | none => false
          | some (j, _) => loadOk j) = false ↔ _
      by_cases hl : loadOk i = true
      · rw [if_pos hl]
        constructor
        · intro h; simp at h
        · rintro ⟨h1, -⟩
          have h2 := h1 (i, m) rfl
          rw [hl] at h2
          simp at h2
      · rw [if_neg hl]
        have hl' : loadOk i = false := by simpa using hl
        cases ht : open_file true stats with
        | none =>
          constructor
          · intro _
            refine ⟨?_, ?_⟩
            · rintro p hp
              cases hp
              exact hl'
            · rintro p hp
              exact absurd hp (by simp)
          · intro _; rfl
        | some q =>
          obtain ⟨j, m2⟩ := q
          show loadOk j = false ↔ _
          constructor
          · intro h2
            refine ⟨?_, ?_⟩
            · rintro p hp; cases hp; exact hl'
            · rintro p hp; cases hp; exact h2
          · rintro ⟨-, h2⟩
            exact h2 (j, m2) rfl

/-- Witness for C8: two candidates with equal timestamps; the first
pass picks the later (`.bin`) entry. -/
theorem c8_witness : open_file false [some 5, some 5] = some (1, 5) := by
  have h := c8_specfile_resolution.1 5 5
  simpa using h

/-! ### Binary loader validation (C9) -/

theorem load_mmap_of_header_none (env : MmapEnv) (r : Region)
    (hh : parse_header env r = none) : load_mmap env r = none := by
  simp [load_mmap, hh]

/-- C9 as amended (binary-loader validation): each malformation of the
claim fails the load when the parse reaches it, except that a
context-validation failure on an earlier spec stops the spec walk with
the load reported successful, so malformations beyond that point are
never reached.  One conjunct per malformation, stated at the parser
step where it manifests, plus the propagation facts: (1) magic
mismatch; (2) version above the maximum; (3) regex-engine version
length mismatch; (4) regex-engine version content mismatch; (5) zero
stem-table count; (6) a failing stem-table walk fails the load; (7)
zero stem length; (8) stem lacking its trailing NUL; (9) a stem read
overrunning the region; (10) stem-walk stepping equations (a failing
step fails the walk, a successful step recurses); (11) zero spec
count; (12) a failing spec walk fails the load; (13) a spec walk that
ends -- completely or by the validation early exit -- yields a
successful load with the specs walked; (14) zero context length; (15)
context lacking its trailing NUL; (16) zero regex length; (17) regex
string lacking its trailing NUL; (18) a rejected context validation
makes the step `.invalid`; (19) spec-walk stepping equations: a
`.failed` step fails the walk, an `.invalid` step ends the walk
successfully with the specs accumulated so far (the C's `goto out`
with `rc = 0` at lines 330-337), a `.parsed` step recurses; (20) a
read beyond the region fails (`next_entry` overrun check) and an
unreadable first word fails the load. -/
theorem c9_binary_loader_validation :
    (∀ (env : MmapEnv) (r : Region) (m : Nat) (r1 : Region),
      next_u32 r = some (m, r1) → m ≠ SELINUX_MAGIC_COMPILED_FCONTEXT →
      load_mmap env r = none) ∧
    (∀ (env : MmapEnv) (r r1 : Region) (v : Nat) (r2 : Region),
      next_u32 r = some (SELINUX_MAGIC_COMPILED_FCONTEXT, r1) →
      next_u32 r1 = some (v, r2) → SELINUX_COMPILED_FCONTEXT_MAX_VERS < v →
      load_mmap env r = none) ∧
    (∀ (env : MmapEnv) (r r1 : Region) (v : Nat) (r2 : Region) (elen : Nat) (r3 : Region),
      next_u32 r = some (SELINUX_MAGIC_COMPILED_FCONTEXT, r1) →
      next_u32 r1 = some (v, r2) →
      SELINUX_COMPILED_FCONTEXT_PCRE_VERS ≤ v → v ≤ SELINUX_COMPILED_FCONTEXT_MAX_VERS →
      next_u32 r2 = some (elen, r3) → (cstr env.regVer).length ≠ elen →
      load_mmap env r = none) ∧
    (∀ (env : MmapEnv) (r r1 : Region) (v : Nat) (r2 : Region) (elen : Nat) (r3 : Region)
        (sb : List Nat) (r4 : Region),
      next_u32 r = some (SELINUX_MAGIC_COMPILED_FCONTEXT, r1) →
      next_u32 r1 = some (v, r2) →
      SELINUX_COMPILED_FCONTEXT_PCRE_VERS ≤ v → v ≤ SELINUX_COMPILED_FCONTEXT_MAX_VERS →
      next_u32 r2 = some (elen, r3) → (cstr env.regVer).length = elen →
      next_entry r3 elen = some (sb, r4) → cstr sb ≠ cstr env.regVer →
      load_mmap env r = none) ∧
    (∀ (env : MmapEnv) (r : Region) (v : Nat) (ok : Bool) (r1 r2 : Region),
      parse_header env r = some (v, ok, r1) → next_u32 r1 = some (0, r2) →
      load_mmap env r = none) ∧
    (∀ (env : MmapEnv) (r : Region) (v : Nat) (ok : Bool) (r1 : Region) (n : Nat) (r2 : Region),
      parse_header env r = some (v, ok, r1) → next_u32 r1 = some (n, r2) → n ≠ 0 →
      stems_loop n ⟨[], []⟩ r2 = none → load_mmap env r = none) ∧
    (∀ (st : StemState) (r r1 : Region),
      next_u32 r = some (0, r1) → stem_step st r = none) ∧
    (∀ (st : StemState) (r : Region) (sl : Nat) (r1 : Region) (buf : List Nat) (r2 : Region),
      next_u32 r = some (sl, r1) → sl ≠ 0 → sl ≠ UINT32_MAX →
      next_entry r1 (sl + 1) = some (buf, r2) → buf.getD sl 1 ≠ 0 →
      stem_step st r = none) ∧
    (∀ (st : StemState) (r : Region) (sl : Nat) (r1 : Region),
      next_u32 r = some (sl, r1) → sl ≠ 0 → sl ≠ UINT32_MAX →
      next_entry r1 (sl + 1) = none → stem_step st r = none) ∧
    ((∀ (n : Nat) (st : StemState) (r : Region),
      stem_step st r = none → stems_loop (n + 1) st r = none) ∧
     (∀ (n : Nat) (st : StemState) (r : Region) (st' : StemState) (r' : Region),
      stem_step st r = some (st', r') → stems_loop (n + 1) st r = stems_loop n st' r')) ∧
    (∀ (env : MmapEnv) (r : Region) (v : Nat) (ok : Bool) (r1 : Region) (n : Nat)
        (r2 : Region) (st : StemState) (r3 r4 : Region),
      parse_header env r = some (v, ok, r1) → next_u32 r1 = some (n, r2) → n ≠ 0 →
      stems_loop n ⟨[], []⟩ r2 = some (st, r3) → next_u32 r3 = some (0, r4) →
      load_mmap env r = none) ∧
    (∀ (env : MmapEnv) (r : Region) (v : Nat) (ok : Bool) (r1 : Region) (n : Nat)
        (r2 : Region) (st : StemState) (r3 : Region) (k : Nat) (r4 : Region),
      parse_header env r = some (v, ok, r1) → next_u32 r1 = some (n, r2) → n ≠ 0 →
      stems_loop n ⟨[], []⟩ r2 = some (st, r3) → next_u32 r3 = some (k, r4) → k ≠ 0 →
      specs_loop env v ok st k [] r4 = none → load_mmap env r = none) ∧
    (∀ (env : MmapEnv) (r : Region) (v : Nat) (ok : Bool) (r1 : Region) (n : Nat)
        (r2 : Region) (st : StemState) (r3 : Region) (k : Nat) (r4 : Region)
        (sps : List BinSpec),
      parse_header env r = some (v, ok, r1) → next_u32 r1 = some (n, r2) → n ≠ 0 →
      stems_loop n ⟨[], []⟩ r2 = some (st, r3) → next_u32 r3 = some (k, r4) → k ≠ 0 →
      specs_loop env v ok st k [] r4 = some sps →
      load_mmap env r = some (st.stems, sps)) ∧
    (∀ (env : MmapEnv) (v : Nat) (ok : Bool) (st : StemState) (r r1 : Region),
      next_u32 r = some (0, r1) → spec_step env v ok st r = .failed) ∧
    (∀ (env : MmapEnv) (v : Nat) (ok : Bool) (st : StemState) (r : Region) (clen : Nat)
        (r1 : Region) (ctx : List Nat) (r2 : Region),
      next_u32 r = some (clen, r1) → clen ≠ 0 → next_entry r1 clen = some (ctx, r2) →
      ctx.getD (clen - 1) 1 ≠ 0 → spec_step env v ok st r = .failed) ∧
    (∀ (env : MmapEnv) (v : Nat) (ok : Bool) (st : StemState) (r : Region) (clen : Nat)
        (r1 : Region) (ctx : List Nat) (r2 r3 : Region),
      next_u32 r = some (clen, r1) → clen ≠ 0 → next_entry r1 clen = some (ctx, r2) →
      ctx.getD (clen - 1) 1 = 0 →
      (env.validating && decide (cstr ctx ≠ noneBytes) && !(env.validate ctx)) = false →
      next_u32 r2 = some (0, r3) → spec_step env v ok st r = .failed) ∧
    (∀ (env : MmapEnv) (v : Nat) (ok : Bool) (st : StemState) (r : Region) (clen : Nat)
        (r1 : Region) (ctx : List Nat) (r2 : Region) (rlen : Nat) (r3 : Region)
        (rx : List Nat) (r4 : Region),
      next_u32 r = some (clen, r1) → clen ≠ 0 → next_entry r1 clen = some (ctx, r2) →
      ctx.getD (clen - 1) 1 = 0 →
      (env.validating && decide (cstr ctx ≠ noneBytes) && !(env.validate ctx)) = false →
      next_u32 r2 = some (rlen, r3) → rlen ≠ 0 → next_entry r3 rlen = some (rx, r4) →
      rx.getD (rlen - 1) 1 ≠ 0 → spec_step env v ok st r = .failed) ∧
    (∀ (env : MmapEnv) (v : Nat) (ok : Bool) (st : StemState) (r : Region) (clen : Nat)
        (r1 : Region) (ctx : List Nat) (r2 : Region),
      next_u32 r = some (clen, r1) → clen ≠ 0 → next_entry r1 clen = some (ctx, r2) →
      ctx.getD (clen - 1) 1 = 0 →
      (env.validating && decide (cstr ctx ≠ noneBytes) && !(env.validate ctx)) = true →
      spec_step env v ok st r = .invalid) ∧
    ((∀ (env : MmapEnv) (v : Nat) (ok : Bool) (st : StemState) (n : Nat) (acc : List BinSpec)
        (r : Region),
      spec_step env v ok st r = .failed → specs_loop env v ok st (n + 1) acc r = none) ∧
     (∀ (env : MmapEnv) (v : Nat) (ok : Bool) (st : StemState) (n : Nat) (acc : List BinSpec)
        (r : Region),
      spec_step env v ok st r = .invalid → specs_loop env v ok st (n + 1) acc r = some acc) ∧
     (∀ (env : MmapEnv) (v : Nat) (ok : Bool) (st : StemState) (n : Nat) (acc : List BinSpec)
        (r : Region) (sp : BinSpec) (r' : Region),
      spec_step env v ok st r = .parsed sp r' →
      specs_loop env v ok st (n + 1) acc r = specs_loop env v ok st n (acc ++ [sp]) r')) ∧
    ((∀ (r : Region) (n : Nat), r.bytes.length < r.pos + n → next_entry r n = none) ∧
     (∀ (env : MmapEnv) (r : Region), next_u32 r = none → load_mmap env r = none)) := by
  refine ⟨?_, ?_, ?_, ?_, ?_, ?_, ?_, ?_, ?_, ⟨?_, ?_⟩, ?_, ?_, ?_, ?_, ?_, ?_, ?_, ?_,
    ⟨?_, ?_, ?_⟩, ⟨?_, ?_⟩⟩
  · intro env r m r1 h1 hm
    apply load_mmap_of_header_none
    simp [parse_header, h1, hm]
  · intro env r r1 v r2 h1 h2 hv
    apply load_mmap_of_header_none
    simp [parse_header, h1, h2, hv]
  · intro env r r1 v r2 elen r3 h1 h2 hv1 hv2 h3 hlen
    have hnv : ¬ SELINUX_COMPILED_FCONTEXT_MAX_VERS < v := by omega
    apply load_mmap_of_header_none
    simp [parse_header, h1, h2, hnv, hv1, h3, hlen]
  · intro env r r1 v r2 elen r3 sb r4 h1 h2 hv1 hv2 h3 hlen h4 hsb
    have hnv : ¬ SELINUX_COMPILED_FCONTEXT_MAX_VERS < v := by omega
    apply load_mmap_of_header_none
    simp [parse_header, h1, h2, hnv, hv1, h3, hlen, h4, hsb]
  · intro env r v ok r1 r2 hh h2
    simp [load_mmap, hh, h2]
  · intro env r v ok r1 n r2 hh h2 hn hsl
    simp [load_mmap, hh, h2, hn, hsl]
  · intro st r r1 h1
    simp [stem_step, h1]
  · intro st r sl r1 buf r2 h1 hs0 hsm h2 hnul
    simp only [stem_step, h1, h2]
    rw [if_neg hs0, if_neg hsm, if_pos hnul]
  · intro st r sl r1 h1 hs0 hsm h2
    simp [stem_step, h1, hs0, hsm, h2]
  · intro n st r hstep
    simp [stems_loop, hstep]
  · intro n st r st' r' hstep
    simp [stems_loop, hstep]
  · intro env r v ok r1 n r2 st r3 r4 hh h2 hn hsl h3
    simp [load_mmap, hh, h2, hn, hsl, h3]
  · intro env r v ok r1 n r2 st r3 k r4 hh h2 hn hsl h3 hk hspec
    simp [load_mmap, hh, h2, hn, hsl, h3, hk, hspec]
  · intro env r v ok r1 n r2 st r3 k r4 sps hh h2 hn hsl h3 hk hspec
    simp [load_mmap, hh, h2, hn, hsl, h3, hk, hspec]
  · intro env v ok st r r1 h1
    simp [spec_step, h1]
  · intro env v ok st r clen r1 ctx r2 h1 hc0 h2 hnul
    simp only [spec_step, h1, h2]
    rw [if_neg hc0, if_pos hnul]
  · intro env v ok st r clen r1 ctx r2 r3 h1 hc0 h2 hnul hval h3
    have hnn : ¬ ctx.getD (clen - 1) 1 ≠ 0 := by simpa using hnul
    have hvv :
        ¬ ((env.validating && decide (cstr ctx ≠ noneBytes) && !(env.validate ctx)) = true) := by
      rw [hval]; simp
    simp only [spec_step, h1, h2, h3]
    rw [if_neg hc0, if_neg hnn, if_neg hvv]
    simp
  · intro env v ok st r clen r1 ctx r2 rlen r3 rx r4 h1 hc0 h2 hnul hval h3 hr0 h4 hrnul
    have hnn : ¬ ctx.getD (clen - 1) 1 ≠ 0 := by simpa using hnul
    have hvv :
        ¬ ((env.validating && decide (cstr ctx ≠ noneBytes) && !(env.validate ctx)) = true) := by
      rw [hval]; simp
    simp only [spec_step, h1, h2, h3, h4]
    rw [if_neg hc0, if_neg hnn, if_neg hvv, if_neg hr0, if_pos hrnul]
  · intro env v ok st r clen r1 ctx r2 h1 hc0 h2 hnul hgate
    have hnn : ¬ ctx.getD (clen - 1) 1 ≠ 0 := by simpa using hnul
    simp only [spec_step, h1, h2]
    rw [if_neg hc0, if_neg hnn, if_pos hgate]
  · intro env v ok st n acc r hstep
    simp [specs_loop, hstep]
  · intro env v ok st n acc r hstep
    simp [specs_loop, hstep]
  · intro env v ok st n acc r sp r' hstep
    simp [specs_loop, hstep]
  · intro r n hover
    simp [next_entry]
    omega
  · intro env r h1
    apply load_mmap_of_header_none
    simp [parse_header, h1]

/-- Counterexample to C9 as stated: this compiled file contains a
regex string lacking its trailing NUL (its second spec's regex, bytes
`[47, 47]`; the spec walk step at that spec's offset 46 fails), yet
`load_mmap` returns success -- with the spec list truncated to empty --
because the first spec's context `"b"` fails `selabel_validate` and
the loader's `goto out` leaves with the return code still `0` from the
preceding successful read (label_file.c:319, 330-337). -/
theorem c9_counterexample :
    load_mmap c9env ⟨c9bytes, 0⟩ = some ([[47]], []) ∧
    spec_step c9env 1 false ⟨[[47]], [0]⟩ ⟨c9bytes, 46⟩ = .failed := by
  refine ⟨by decide, by decide⟩

/-- Witness for C9: a four-byte file of zeros has a mismatched magic
and fails to load. -/
theorem c9_witness : load_mmap demoEnv ⟨[0, 0, 0, 0], 0⟩ = none :=
  c9_binary_loader_validation.1 demoEnv ⟨[0, 0, 0, 0], 0⟩ 0 ⟨[0, 0, 0, 0], 4⟩ (by decide)
    (by decide)

/-- Witness for the amended C3 on a concrete handle: the key hits a
non-exact spec, the alias misses; the selection rule returns the key's
spec. -/
theorem c3_witness :
    (([['/', 'a']] : List (List Char)) ≠ []) ∧
    lookup_best_match c3h ['/', 'b'] [['/', 'a']] 0 =
      bestSpecRef (([['/', 'b'], ['/', 'a']] : List (List Char)).map (fun a => lookup c3h a 0)) :=
  ⟨by decide, c3_best_match_amended c3h ['/', 'b'] [['/', 'a']] 0 (by decide)⟩

end LabelFile
